import Mathlib

/-!
Verification of the multishot decentralized ridge-regression package
(src/index.js, src/runners.js, src/helpers.js) against its
natural-language specification.

Numbers are embedded as `Option ℚ` (`JsNum`) where `none` models
JavaScript's `undefined`/`NaN`: arithmetic on `none` propagates `none`,
and ordered comparisons against `none` are false, matching NaN
semantics.  Plain fields that the source always populates with numbers
are embedded as `ℚ`.  JavaScript objects keyed by ROI are embedded as
association lists in insertion order, where a later binding for the
same key shadows an earlier one, matching property assignment.
-/

set_option autoImplicit false

attribute [local semireducible] Rat.add Rat.mul Rat.sub Rat.inv

namespace Multishot

/-- A JavaScript number-or-undefined value: `none` is `undefined`/`NaN`. -/
abbrev JsNum := Option ℚ

/-- Addition with NaN/undefined propagation. -/
def jsAdd : JsNum → JsNum → JsNum
  | some a, some b => some (a + b)
  | _, _ => none

/-- Multiplication with NaN/undefined propagation. -/
def jsMul : JsNum → JsNum → JsNum
  | some a, some b => some (a * b)
  | _, _ => none

/-- Subtraction with NaN/undefined propagation. -/
def jsSub : JsNum → JsNum → JsNum
  | some a, some b => some (a - b)
  | _, _ => none

/-- A JavaScript object keyed by ROI labels: an association list in
insertion order.  Later bindings shadow earlier ones, as in repeated
property assignment (`_.zipObject` assigns keys left to right). -/
abbrev RoiMap := List (String × JsNum)

/-- Property read `obj[key]`: the value of the LAST binding for `key`
(later assignments win), `none` (undefined) when there is no binding. -/
def RoiMap.get : RoiMap → String → JsNum
  | [], _ => none
  | (k, v) :: rest, q =>
      if rest.any (fun p => p.1 = q) then RoiMap.get rest q
      else if k = q then v else none

/-- The keys of an object, in binding order. -/
def RoiMap.keys (m : RoiMap) : List String := m.map (fun p => p.1)

/-- lodash `isEqual` restricted to the ROI objects this program
compares: value equality over the union of the two key sets,
insensitive to key order. -/
def isEqualMap (a b : RoiMap) : Bool :=
  (a.keys ++ b.keys).all (fun k => decide (a.get k = b.get k))

/-- helpers.js `sum`: `_.flatten(values).reduce((all, n) => all + n)`.
`_.flatten` is the identity on the flat lists summed here;
`Array.prototype.reduce` without an initial value throws a `TypeError`
on an empty array, modelled as `none`. -/
def sum (values : List ℚ) : Option ℚ :=
  match values with
  | [] => none
  | x :: xs => some (xs.foldl (· + ·) x)

/-- helpers.js `mean`: `0` for an empty list, otherwise `sum / count`.
`sum` is `some` on every non-empty list, so `getD`'s default is never
read. -/
def mean (values : List ℚ) : ℚ :=
  if values.length = 0 then 0
  else ((sum values).getD 0) / (values.length : ℚ)

/-- helpers.js `unzipRoiKeyPairs`: `_.map(roiKeys, key => obj[key])`. -/
def unzipRoiKeyPairs (obj : RoiMap) (roiKeys : List String) : List JsNum :=
  roiKeys.map (fun key => obj.get key)

/-- helpers.js `zipRoiKeyPairs`: `_.zipObject(roiKeys, values)`. -/
def zipRoiKeyPairs (values : List JsNum) (roiKeys : List String) : RoiMap :=
  roiKeys.zip values

/-- The `data` sub-document of a participant analysis, as read by
helpers.js `getObjectiveValues` (`_.property('data.objective')`). -/
structure UserData where
  objective : ℚ
  deriving DecidableEq

/-- One participant result as the remote side reads it: top-level
`gradient`, `r2` and `previousAggregateMVals` (src/index.js sync gate,
helpers.js `getGradientValues`, runners.js r2 average) and the
`data.objective` path (helpers.js `getObjectiveValues`). -/
structure UserResult where
  previousAggregateMVals : RoiMap
  gradient : RoiMap
  r2 : ℚ
  data : UserData
  deriving DecidableEq

/-- helpers.js `getObjectiveValues`. -/
def getObjectiveValues (analyses : List UserResult) : List ℚ :=
  analyses.map (fun a => a.data.objective)

/-- helpers.js `getGradientValues`. -/
def getGradientValues (analyses : List UserResult) (roiKeys : List String) :
    List (List JsNum) :=
  (analyses.map (fun a => a.gradient)).map
    (fun values => unzipRoiKeyPairs values roiKeys)

/-- Modelled from the spec: `coinstacAlgorithms.utils.columnWiseSum`
(package coinstac-distributed-algorithm-set, not under src/) —
"`columnWiseSum(matrix)` → vector", the column-wise sum of the rows. -/
def columnWiseSum (rows : List (List JsNum)) : List JsNum :=
  match rows with
  | [] => []
  | r :: rs => rs.foldl (fun acc row => List.zipWith jsAdd acc row) r

/-- Sum of squares of a vector, with NaN propagation. -/
def sumSq (v : List JsNum) : JsNum :=
  v.foldl (fun acc x => jsAdd acc (jsMul x x)) (some 0)

/-- Modelled from the spec: the comparison `numeric.norm2(v) < tol`
(`l2Norm(vector) → non-negative float`; the `numeric` package is not
under src/).  Since the square root is irrational, the comparison is
embedded by the equivalent `0 < tol ∧ Σ x² < tol²` (for `s ≥ 0`,
`√s < t ↔ 0 < t ∧ s < t²`); a NaN comparison is false. -/
def norm2Lt (v : List JsNum) (tol : ℚ) : Bool :=
  match sumSq v with
  | some s => decide (0 < tol ∧ s < tol * tol)
  | none => false

/-- Modelled from the spec:
`coinstacAlgorithms.ridgeRegression.recalculateMVals` (package
coinstac-distributed-algorithm-set, not under src/) — "always take one
descent step from the selected best-fit anchor using the selected
learning rate": coordinate-wise `m - learningRate * g`. -/
def recalculateMVals (learningRate : ℚ) (mVals gradient : List JsNum) :
    List JsNum :=
  List.zipWith (fun m g => jsSub m (jsMul (some learningRate) g)) mVals gradient

/-- The `previousBestFit` record `{gradient, mVals, objective}`. -/
structure BestFit where
  gradient : RoiMap
  mVals : RoiMap
  objective : ℚ
  deriving DecidableEq

/-- The remote aggregate document (`previousData` on the remote side).
The JS seed has no `complete` property; an absent property is embedded
as `complete = false`. -/
structure RemoteState where
  gradient : RoiMap
  iterationCount : ℕ
  learningRate : ℚ
  mVals : RoiMap
  objective : ℚ
  previousBestFit : BestFit
  r2 : ℚ
  complete : Bool
  deriving DecidableEq

/-- helpers.js `markRemoteComplete`:
`_.assign({}, remoteResult, { complete: true })`. -/
def markRemoteComplete (remoteResult : RemoteState) : RemoteState :=
  { remoteResult with complete := true }

/-- Runtime errors the embedded code can raise. -/
inductive JsError where
  /-- A `TypeError`: calling `undefined` (`runners.computeAverage`),
  reducing an empty array with no initial value, or reading a property
  of `undefined` (`controls.controls.push`). -/
  | typeError
  /-- The `Error` from src/index.js local.fn: file path contains
  neither branch's keyword. -/
  | fileMismatch (filename : String)
  /-- Modelled from the spec: `InputShapeError` raised by the
  ridge-regression kernel on mismatched or empty predictor/response
  rows (§4.2); the kernel is not under src/. -/
  | inputShapeError
  deriving DecidableEq

/-- Result of runners.js `computeAggregate`: either the `STOP` symbol
or the next aggregate document. -/
inductive AggRes where
  | stop
  | next (d : RemoteState)
  deriving DecidableEq

/-- runners.js `computeAggregate`.  Reducing the objective values of an
empty result list throws (`sum` is `none`), modelled as `typeError`.
`mVals` is always recalculated from `previousRemoteResult.previousBestFit`
("Still recalculate MVals with the previous best fit's data"), not from
the freshly selected `bestFit`. -/
def computeAggregate (previousRemoteResult : RemoteState)
    (localResults : List UserResult) (tolerance : ℚ)
    (roiKeys : List String) : Except JsError AggRes :=
  match sum (getObjectiveValues localResults) with
  | none => .error .typeError
  | some aggregateObjective =>
    let aggregateGradient :=
      columnWiseSum (getGradientValues localResults roiKeys)
    let gradient := zipRoiKeyPairs aggregateGradient roiKeys
    if norm2Lt (unzipRoiKeyPairs gradient roiKeys) tolerance then
      .ok .stop
    else
      let lrBestFit : ℚ × BestFit :=
        if aggregateObjective > previousRemoteResult.previousBestFit.objective
        then (previousRemoteResult.learningRate / 2,
              previousRemoteResult.previousBestFit)
        else (previousRemoteResult.learningRate,
              { gradient := previousRemoteResult.gradient
                mVals := previousRemoteResult.mVals
                objective := previousRemoteResult.objective })
      .ok (.next
        { gradient := gradient
          iterationCount := previousRemoteResult.iterationCount + 1
          learningRate := lrBestFit.1
          mVals := zipRoiKeyPairs
            (recalculateMVals lrBestFit.1
              (unzipRoiKeyPairs previousRemoteResult.previousBestFit.mVals
                roiKeys)
              (unzipRoiKeyPairs previousRemoteResult.previousBestFit.gradient
                roiKeys))
            roiKeys
          objective := aggregateObjective
          previousBestFit := lrBestFit.2
          r2 := mean (localResults.map (fun result => result.r2))
          complete := false })

/-- src/index.js `INITIAL_LEARNING_RATE`. -/
def INITIAL_LEARNING_RATE : ℚ := 7 / 10

/-- src/index.js `MAX_ITERATION_COUNT`. -/
def MAX_ITERATION_COUNT : ℕ := 200

/-- src/index.js `TOLERANCE` (`1e-5`). -/
def TOLERANCE : ℚ := 1 / 100000

/-- src/index.js `ROI_KEYS`. -/
def ROI_KEYS : List String := ["Left-Hippocampus"]

/-- The value `remote.fn` hands to its callback. -/
inductive RemoteOut where
  /-- The `callback(null, null)` no-op: waiting (no user results, or results not
  yet synchronized to the last aggregate's mVals). -/
  | noop
  /-- The `callback(null, helpers.getRemoteSeed(...))` output: a fresh seed
  document.  Its contents are not embedded: `getRemoteSeed` draws each
  `mVals[key]` from `Math.random()` and sets `objective = Infinity`,
  and no claim examines them. -/
  | seeded
  /-- A full aggregate document. -/
  | state (s : RemoteState)
  /-- The value of `markRemoteComplete(computeAggregate.STOP)`:
  `_.assign({}, STOP, { complete: true })` copies no own enumerable
  properties from the `STOP` symbol, so the result is the bare object
  `{ complete: true }` with no mVals, learningRate or anything else. -/
  | bareComplete
  deriving DecidableEq

/-- src/index.js `remote.fn`, faithfully: seed gate, sync gate,
max-iteration gate, then the call `runners.computeAverage(...)`.
runners.js exports only `computeAggregate` and `computeRegression`, so
`runners.computeAverage` is `undefined` and the call throws a
`TypeError` on every path that reaches it. -/
def remoteFn (previousData : Option RemoteState)
    (userResults : Option (List UserResult)) : Except JsError RemoteOut :=
  match previousData with
  | none => .ok .seeded
  | some prev =>
    match userResults with
    | none => .ok .noop
    | some results =>
      if results.isEmpty ||
          !((results.map (fun r => r.previousAggregateMVals)).all
            (fun userMVals => isEqualMap userMVals prev.mVals)) then
        .ok .noop
      else if MAX_ITERATION_COUNT ≤ prev.iterationCount then
        .ok (.state (markRemoteComplete prev))
      else
        .error .typeError

/-- src/index.js `remote.fn` with the apparent naming slip corrected:
`runners.computeAverage` read as `runners.computeAggregate`, as the
inline documentation ("mark as 'complete' if `computeAggregate` signals
to stop") and the `STOP` handling indicate.  Exhibits the behaviour of
the converged branch: `markRemoteComplete(newResult)` is applied to the
`STOP` sentinel itself, yielding the bare `{ complete: true }`. -/
def remoteFnIntended (previousData : Option RemoteState)
    (userResults : Option (List UserResult)) : Except JsError RemoteOut :=
  match previousData with
  | none => .ok .seeded
  | some prev =>
    match userResults with
    | none => .ok .noop
    | some results =>
      if results.isEmpty ||
          !((results.map (fun r => r.previousAggregateMVals)).all
            (fun userMVals => isEqualMap userMVals prev.mVals)) then
        .ok .noop
      else if MAX_ITERATION_COUNT ≤ prev.iterationCount then
        .ok (.state (markRemoteComplete prev))
      else
        match computeAggregate prev results TOLERANCE ROI_KEYS with
        | .error e => .error e
        | .ok .stop => .ok .bareComplete
        | .ok (.next newResult) => .ok (.state newResult)

/-! ## Local side: computeRegression and the local.fn file-partition loop -/

/-- Modelled from the spec: `coinstacAlgorithms.utils.normalize`
(package coinstac-distributed-algorithm-set, not under src/).  The spec
leaves the exact statistic "documented, pluggable" (§9); unit variance
is irrational over ℚ, so the pluggable default is embedded as
column-wise mean-centering.  It preserves the shape of its input, which
is all the shape-error claim relies on. -/
def normalize (rows : List (List ℚ)) : List (List ℚ) :=
  let n : ℚ := (rows.length : ℚ)
  let colMean : ℕ → ℚ := fun j =>
    (rows.map (fun r => r.getD j 0)).sum / n
  rows.map (fun r =>
    (List.range r.length).map (fun j => r.getD j 0 - colMean j))

/-- Modelled from the spec:
`coinstacAlgorithms.ridgeRegression.applyModel` — apply the model
vector to each predictor row (dot product). -/
def applyModel (mVals : List ℚ) (xVals : List (List ℚ)) : List ℚ :=
  xVals.map (fun row => (List.zipWith (· * ·) mVals row).sum)

/-- Modelled from the spec:
`coinstacAlgorithms.ridgeRegression.gradient` (package
coinstac-distributed-algorithm-set, not under src/).  §4.2:
LocalRegressionStep "fails with `InputShapeError` if X and Y have
mismatched row counts or either is empty"; otherwise the least-squares
gradient of the residuals at `mVals`. -/
def ridgeGradient (mVals : List ℚ) (xVals : List (List ℚ))
    (yVals : List (List ℚ)) : Except JsError (List ℚ) :=
  if xVals.length ≠ yVals.length ∨ xVals = [] ∨ yVals = [] then
    .error .inputShapeError
  else
    let residuals := List.zipWith (fun row y => (List.zipWith (· * ·) mVals row).sum - y.sum) xVals yVals
    .ok ((List.range mVals.length).map (fun j =>
      (List.zipWith (fun row r => row.getD j 0 * r) xVals residuals).sum))

/-- Modelled from the spec:
`coinstacAlgorithms.ridgeRegression.objective` — the sum of squared
residuals at `mVals`, failing with `InputShapeError` on mismatched or
empty rows exactly as the gradient does. -/
def ridgeObjective (mVals : List ℚ) (xVals : List (List ℚ))
    (yVals : List (List ℚ)) : Except JsError ℚ :=
  if xVals.length ≠ yVals.length ∨ xVals = [] ∨ yVals = [] then
    .error .inputShapeError
  else
    .ok ((List.zipWith
      (fun row y => ((List.zipWith (· * ·) mVals row).sum - y.sum) ^ 2)
      xVals yVals).sum)

/-- Modelled from the spec: `coinstacAlgorithms.utils.r2` — the
coefficient of determination of sample data against model data,
`1 - SSres / SStot` (0 when the total sum of squares vanishes). -/
def r2Stat (sampleData : List ℚ) (modelData : List ℚ) : ℚ :=
  let meanY := mean sampleData
  let ssTot := (sampleData.map (fun y => (y - meanY) ^ 2)).sum
  let ssRes := (List.zipWith (fun y p => (y - p) ^ 2) sampleData modelData).sum
  if ssTot = 0 then 0 else 1 - ssRes / ssTot

/-- The local result produced by runners.js `computeRegression`:
`previousAggregateMVals` echoes the ordered `aggregateMVals` array. -/
structure LocalResult where
  gradient : RoiMap
  objective : ℚ
  previousAggregateMVals : List ℚ
  r2 : ℚ
  deriving DecidableEq

/-- runners.js `computeRegression`: normalize X and Y, then gradient,
applyModel, objective and r² of the normalized data at
`aggregateMVals`.  A kernel exception propagates (`Except`), exactly as
a thrown error aborts the JS function. -/
def computeRegression (xVals yVals : List (List ℚ))
    (aggregateMVals : List ℚ) (roiKeys : List String) :
    Except JsError LocalResult := do
  let normalizedXVals := normalize xVals
  let normalizedYVals := normalize yVals
  let gradient ← ridgeGradient aggregateMVals normalizedXVals normalizedYVals
  let predictedYVals := applyModel aggregateMVals normalizedXVals
  let objective ← ridgeObjective aggregateMVals normalizedXVals normalizedYVals
  return { gradient := zipRoiKeyPairs (gradient.map some) roiKeys
           objective := objective
           previousAggregateMVals := aggregateMVals
           r2 := r2Stat (normalizedYVals.map (fun y => y.sum)) predictedYVals }

/-- JavaScript `String.prototype.indexOf`: index of the first occurrence of `pat`
in `s`, `-1` if absent.  (Helper for the literal position search.) -/
def indexOfAux (pat : List Char) : List Char → ℕ → Int
  | [], i => if pat.isPrefixOf ([] : List Char) then (i : Int) else -1
  | c :: t, i => if pat.isPrefixOf (c :: t) then (i : Int) else indexOfAux pat t (i + 1)

/-- JavaScript `s.indexOf(pat)` for strings. -/
def strIndexOf (s pat : String) : Int :=
  indexOfAux pat.data s.data 0

/-- The file-partition loop of src/index.js `local.fn` (lines 132-143),
faithfully.  `if (filenames[i].indexOf('controls'))` uses the index as
a boolean, so it is taken whenever `'controls'` is NOT at position 0
(including `-1` for absent); that branch runs
`controls.controls.push(...)`, an access on the undefined property
`controls` of the array literal `controls = []`, throwing a
`TypeError`.  Symmetrically for `'patients'`.  The `else` branch
returns the mismatch `Error` through the callback.  Every branch
aborts, so no iteration ever reaches the rest of the list. -/
def localFileStage : List String → Except JsError (List String × List String)
  | [] => .ok ([], [])
  | f :: _ =>
    if strIndexOf f "controls" ≠ 0 then .error .typeError
    else if strIndexOf f "patients" ≠ 0 then .error .typeError
    else .error (.fileMismatch f)

/-- The remainder of `local.fn` after its gates: partition the
filenames, extract ROI rows from each partition (the file reading and
Freesurfer parsing of `getROIsFromFiles` abstracted as `readRois`), and
run the regression. -/
def localRun (readRois : List String → List (List ℚ))
    (filenames : List String) (aggregateMVals : List ℚ)
    (roiKeys : List String) : Except JsError LocalResult := do
  let (controls, patients) ← localFileStage filenames
  computeRegression (readRois controls) (readRois patients)
    aggregateMVals roiKeys

/-! ## History bookkeeping (C7) -/

/-- One history entry: the `{gradient, mVals, objective, r2,
learningRate}` snapshot the spec appends each round.  The record has no
history field, so a history entry cannot nest a history. -/
structure Snapshot where
  gradient : RoiMap
  mVals : RoiMap
  objective : ℚ
  r2 : ℚ
  learningRate : ℚ
  deriving DecidableEq

/-- The snapshot of an aggregate document. -/
def snapshotOf (d : RemoteState) : Snapshot :=
  { gradient := d.gradient
    mVals := d.mVals
    objective := d.objective
    r2 := d.r2
    learningRate := d.learningRate }

/-- An aggregate document together with its iteration history. -/
structure HistState where
  state : RemoteState
  history : List Snapshot
  deriving DecidableEq

/-- Modelled from the spec: the aggregation driver
(lib/analysis-runners.js `runMultiShot`, exercised by test/runners.js
but absent from src/) runs one accepted round — §4.3 step 8: "append
the new `{gradient, mVals, objective, r2, learningRate}` snapshot to
history".  `none` when the round is not accepted (converged or
errored). -/
def runRound (hs : HistState) (localResults : List UserResult)
    (tolerance : ℚ) (roiKeys : List String) : Option HistState :=
  match computeAggregate hs.state localResults tolerance roiKeys with
  | .ok (.next d) => some { state := d, history := hs.history ++ [snapshotOf d] }
  | _ => none

/-- Run a sequence of accepted rounds, threading the history. -/
def runRounds (hs : HistState) (rounds : List (List UserResult))
    (tolerance : ℚ) (roiKeys : List String) : Option HistState :=
  match rounds with
  | [] => some hs
  | r :: rs =>
    match runRound hs r tolerance roiKeys with
    | none => none
    | some hs' => runRounds hs' rs tolerance roiKeys

/-! ## Concrete documents for evaluation -/

/-- A well-formed intermediate aggregate document over the run's single
ROI key: `mVals = {Left-Hippocampus: 1/2}`, `learningRate = 7/10`,
`iterationCount = 0`. -/
def exState : RemoteState :=
  { gradient := [("Left-Hippocampus", some 0)]
    iterationCount := 0
    learningRate := 7 / 10
    mVals := [("Left-Hippocampus", some (1 / 2))]
    objective := 5
    previousBestFit :=
      { gradient := [("Left-Hippocampus", some 0)]
        mVals := [("Left-Hippocampus", some (1 / 2))]
        objective := 5 }
    r2 := 0
    complete := false }

/-- A synchronized participant result whose gradient is `0`, driving
the aggregate l2 norm to `0 < TOLERANCE` (a converged round). -/
def exResultConverged : UserResult :=
  { previousAggregateMVals := [("Left-Hippocampus", some (1 / 2))]
    gradient := [("Left-Hippocampus", some 0)]
    r2 := 0
    data := { objective := 3 } }

/-- A synchronized participant result whose gradient is `1`, keeping
the aggregate l2 norm far above `TOLERANCE` (a non-converged round). -/
def exResultOngoing : UserResult :=
  { previousAggregateMVals := [("Left-Hippocampus", some (1 / 2))]
    gradient := [("Left-Hippocampus", some 1)]
    r2 := 0
    data := { objective := 3 } }

/-- The state `exState` at the iteration cap. -/
def exStateExhausted : RemoteState :=
  { exState with iterationCount := 200 }

/-! ## C1: the converged round -/

/-- C1.  The claim says a converged round returns a completed state
carrying S's `mVals` and `learningRate`.  The code does not: at a prior
non-terminal state with a synchronized result set whose aggregate
gradient has l2 norm `0 < TOLERANCE`, `remote.fn` throws a `TypeError`
(it calls `runners.computeAverage`, which runners.js does not export),
and even under the documented intent (`computeAggregate`), the `STOP`
branch applies `markRemoteComplete` to the `STOP` sentinel itself,
returning the bare `{complete: true}` with no `mVals` or
`learningRate` at all. -/
theorem C1_converged_round_behaviour :
    remoteFn (some exState) (some [exResultConverged]) = .error .typeError ∧
    remoteFnIntended (some exState) (some [exResultConverged]) =
      .ok .bareComplete :=
  ⟨rfl, rfl⟩

/-! ## C2: the remote entry point throws on every valid round -/

/-- C2.  The claim says `remote.fn` never throws on a previous state
with a non-empty synchronized result set and `iterationCount` below the
maximum.  It always does: `runners.computeAverage` is `undefined`
(runners.js exports `computeAggregate`), so the call throws a
`TypeError` at exactly those inputs — here a synchronized, non-empty,
non-converged round at `iterationCount = 0 < 200`. -/
theorem C2_valid_round_throws :
    remoteFn (some exState) (some [exResultOngoing]) = .error .typeError :=
  rfl

/-! ## C3: the max-iteration gate is NOT checked first -/

/-- C3 counterexample.  At a state whose `iterationCount` equals
`MAX_ITERATION_COUNT` and an empty result set, `remote.fn` returns the
waiting no-op, not the completed state the claim requires: the sync
gate is checked before the max-iteration gate. -/
theorem C3_counterexample :
    remoteFn (some exStateExhausted) (some []) = .ok .noop ∧
    RemoteOut.noop ≠ RemoteOut.state (markRemoteComplete exStateExhausted) :=
  ⟨rfl, by decide⟩

/-- C3 (amended).  For every prior state `S` with
`S.iterationCount ≥ MAX_ITERATION_COUNT` and every NON-EMPTY result set
`R` synchronized to `S.mVals` — the sync gate runs first, so an empty
or desynchronized `R` yields the waiting no-op instead — `remote.fn`
returns `S` unchanged except marked `complete = true`, skipping
aggregation entirely. -/
theorem C3_max_iteration_gate (S : RemoteState) (R : List UserResult)
    (hne : R ≠ [])
    (hsync : ∀ r ∈ R, isEqualMap r.previousAggregateMVals S.mVals = true)
    (hmax : MAX_ITERATION_COUNT ≤ S.iterationCount) :
    remoteFn (some S) (some R) = .ok (.state { S with complete := true }) := by
  have hall : (R.map (fun r => r.previousAggregateMVals)).all
      (fun userMVals => isEqualMap userMVals S.mVals) = true := by
    rw [List.all_eq_true]
    intro x hx
    rcases List.mem_map.mp hx with ⟨r, hr, rfl⟩
    exact hsync r hr
  have hempty : R.isEmpty = false := by
    cases R with
    | nil => exact absurd rfl hne
    | cons a l => rfl
  simp [remoteFn, hempty, hall, hmax, markRemoteComplete]

/-- C3 witness: the amended gate at a concrete exhausted state with one
synchronized result. -/
theorem C3_max_iteration_gate_witness :
    remoteFn (some exStateExhausted) (some [exResultOngoing]) =
      .ok (.state { exStateExhausted with complete := true }) :=
  C3_max_iteration_gate exStateExhausted [exResultOngoing]
    (by decide) (by decide) (by decide)

/-! ## C10: the local file-partition loop can never succeed -/

/-- C10.  Whenever `local.fn` reaches its file-partition loop with a
non-empty filenames list, it cannot produce a `LocalResult`: the first
filename either has `'controls'` away from position 0 (including
absent, `indexOf = -1`) and `controls.controls.push` throws a
`TypeError`; or `'patients'` away from position 0 and
`patients.patients.push` throws a `TypeError`; or both at position 0
and the mismatch `Error` is returned — so the run aborts before any
regression is computed, for any file contents `readRois` could
yield. -/
theorem C10_file_partition_loop
    (readRois : List String → List (List ℚ)) (f : String)
    (rest : List String) (aggregateMVals : List ℚ)
    (roiKeys : List String) :
    localRun readRois (f :: rest) aggregateMVals roiKeys =
        .error .typeError ∨
    localRun readRois (f :: rest) aggregateMVals roiKeys =
        .error (.fileMismatch f) := by
  unfold localRun
  by_cases h1 : strIndexOf f "controls" = 0
  · by_cases h2 : strIndexOf f "patients" = 0
    · right
      have hs : localFileStage (f :: rest) = .error (.fileMismatch f) := by
        simp [localFileStage, h1, h2]
      rw [hs]
      rfl
    · left
      have hs : localFileStage (f :: rest) = .error .typeError := by
        simp [localFileStage, h1, h2]
      rw [hs]
      rfl
  · left
    have hs : localFileStage (f :: rest) = .error .typeError := by
      simp [localFileStage, h1]
    rw [hs]
    rfl

/-! ## Destructuring an accepted aggregation round -/

/-- The aggregate gradient object of a round. -/
def aggGradientMap (localResults : List UserResult) (roiKeys : List String) :
    RoiMap :=
  zipRoiKeyPairs (columnWiseSum (getGradientValues localResults roiKeys))
    roiKeys

/-- The document `computeAggregate` returns on an accepted round, given
the selected learning rate `lr` and best fit `bf`. -/
def nextStateWith (S : RemoteState) (localResults : List UserResult)
    (aggregateObjective : ℚ) (lr : ℚ) (bf : BestFit)
    (roiKeys : List String) : RemoteState :=
  { gradient := aggGradientMap localResults roiKeys
    iterationCount := S.iterationCount + 1
    learningRate := lr
    mVals := zipRoiKeyPairs
      (recalculateMVals lr
        (unzipRoiKeyPairs S.previousBestFit.mVals roiKeys)
        (unzipRoiKeyPairs S.previousBestFit.gradient roiKeys))
      roiKeys
    objective := aggregateObjective
    previousBestFit := bf
    r2 := mean (localResults.map (fun result => result.r2))
    complete := false }

/-- An accepted round of `computeAggregate` is exactly one of the two
learning-rate branches applied to the aggregated objective. -/
theorem computeAggregate_next_spec (S : RemoteState) (R : List UserResult)
    (tol : ℚ) (keys : List String) (d : RemoteState)
    (h : computeAggregate S R tol keys = .ok (.next d)) :
    ∃ a, sum (getObjectiveValues R) = some a ∧
      norm2Lt (unzipRoiKeyPairs (aggGradientMap R keys) keys) tol = false ∧
      ((S.previousBestFit.objective < a ∧
          d = nextStateWith S R a (S.learningRate / 2) S.previousBestFit
            keys) ∨
        (a ≤ S.previousBestFit.objective ∧
          d = nextStateWith S R a S.learningRate
            { gradient := S.gradient, mVals := S.mVals,
              objective := S.objective } keys)) := by
  unfold computeAggregate at h
  cases hs : sum (getObjectiveValues R) with
  | none =>
    rw [hs] at h
    exact absurd h (by simp)
  | some a =>
    rw [hs] at h
    dsimp only at h
    refine ⟨a, rfl, ?_⟩
    by_cases hn : norm2Lt
        (unzipRoiKeyPairs
          (zipRoiKeyPairs (columnWiseSum (getGradientValues R keys)) keys)
          keys) tol
    · rw [if_pos hn] at h
      exact absurd h (by simp)
    · rw [if_neg hn] at h
      refine ⟨by simpa [aggGradientMap] using hn, ?_⟩
      by_cases ho : a > S.previousBestFit.objective
      · rw [if_pos ho] at h
        simp only [Except.ok.injEq, AggRes.next.injEq] at h
        exact Or.inl ⟨ho, h.symm⟩
      · rw [if_neg ho] at h
        simp only [Except.ok.injEq, AggRes.next.injEq] at h
        exact Or.inr ⟨le_of_not_lt ho, h.symm⟩

/-! ## C5: learning-rate / anchor selection -/

/-- C5.  In every accepted aggregation round (`computeAggregate`
returned a next document rather than `STOP` or an error): if the new
aggregate objective is strictly greater than
`previousBestFit.objective`, the returned `learningRate` is the input
learning rate divided by 2 and `previousBestFit` is returned unchanged;
otherwise the learning rate is returned unchanged and the returned
`previousBestFit` is the input state's pre-round
`{gradient, mVals, objective}`. -/
theorem C5_learning_rate_selection (S : RemoteState) (R : List UserResult)
    (tol : ℚ) (keys : List String) (d : RemoteState)
    (h : computeAggregate S R tol keys = .ok (.next d)) :
    (S.previousBestFit.objective < d.objective →
      d.learningRate = S.learningRate / 2 ∧
      d.previousBestFit = S.previousBestFit) ∧
    (d.objective ≤ S.previousBestFit.objective →
      d.learningRate = S.learningRate ∧
      d.previousBestFit =
        { gradient := S.gradient, mVals := S.mVals,
          objective := S.objective }) := by
  obtain ⟨a, _, _, hcase⟩ := computeAggregate_next_spec S R tol keys d h
  rcases hcase with ⟨hgt, rfl⟩ | ⟨hle, rfl⟩
  · exact ⟨fun _ => ⟨rfl, rfl⟩, fun hobj => absurd hobj (not_le.mpr hgt)⟩
  · exact ⟨fun hobj => absurd hobj (not_lt.mpr hle), fun _ => ⟨rfl, rfl⟩⟩

/-! ## C4: the descent step is always taken from previousBestFit -/

/-- The accepted-round document of the C4/C5/C6 concrete improved
round: objective `5 ≤ 10` keeps the learning rate and adopts the
pre-round data as the new best fit, while `mVals` is still recalculated
from the OLD `previousBestFit` (both `0` there), landing at `0` rather
than at a descent step from the pre-round `mVals = 10`. -/
def exNextImproved : RemoteState :=
  { gradient := [("a", some 1)]
    iterationCount := 1
    learningRate := 1
    mVals := [("a", some 0)]
    objective := 5
    previousBestFit :=
      { gradient := [("a", some 0)]
        mVals := [("a", some 10)]
        objective := 7 }
    r2 := 0
    complete := false }

/-- A prior state whose pre-round `mVals` (10) differ from its
`previousBestFit.mVals` (0). -/
def exStateImproved : RemoteState :=
  { gradient := [("a", some 0)]
    iterationCount := 0
    learningRate := 1
    mVals := [("a", some 10)]
    objective := 7
    previousBestFit :=
      { gradient := [("a", some 0)]
        mVals := [("a", some 0)]
        objective := 10 }
    r2 := 0
    complete := false }

/-- A participant result making the round accepted (gradient norm `1`
above tolerance `1/10`) and improved (objective `5 ≤ 10`). -/
def exResultImproved : UserResult :=
  { previousAggregateMVals := [("a", some 10)]
    gradient := [("a", some 1)]
    r2 := 0
    data := { objective := 5 } }

/-- C4 counterexample.  An accepted, improved round (objective
`5 ≤ previousBestFit.objective = 10`) whose returned `mVals` is NOT one
descent step from the claim's anchor (the input state's pre-round
`{gradient, mVals}`): the code comments "Still recalculate MVals with
the previous best fit's data" and always steps from
`S.previousBestFit`, landing at `0` instead of `10`. -/
theorem C4_counterexample :
    computeAggregate exStateImproved [exResultImproved] (1 / 10) ["a"] =
      .ok (.next exNextImproved) ∧
    exNextImproved.objective ≤ exStateImproved.previousBestFit.objective ∧
    exNextImproved.mVals ≠
      zipRoiKeyPairs
        (recalculateMVals exNextImproved.learningRate
          (unzipRoiKeyPairs exStateImproved.mVals ["a"])
          (unzipRoiKeyPairs exStateImproved.gradient ["a"]))
        ["a"] :=
  ⟨rfl, by decide, by decide⟩

/-- C4 (amended).  In every accepted round, the new `mVals` is one
descent step using the selected learning rate from the input state's
`previousBestFit` — always, regardless of whether the round improved or
regressed; the freshly selected anchor is only stored as the NEXT
`previousBestFit`, not used for this round's step. -/
theorem C4_descent_anchor (S : RemoteState) (R : List UserResult)
    (tol : ℚ) (keys : List String) (d : RemoteState)
    (h : computeAggregate S R tol keys = .ok (.next d)) :
    d.mVals = zipRoiKeyPairs
      (recalculateMVals d.learningRate
        (unzipRoiKeyPairs S.previousBestFit.mVals keys)
        (unzipRoiKeyPairs S.previousBestFit.gradient keys))
      keys := by
  obtain ⟨a, _, _, hcase⟩ := computeAggregate_next_spec S R tol keys d h
  rcases hcase with ⟨_, rfl⟩ | ⟨_, rfl⟩ <;> rfl

/-- C4 witness: the amended anchor law evaluated at the concrete
improved round. -/
theorem C4_descent_anchor_witness :
    exNextImproved.mVals = zipRoiKeyPairs
      (recalculateMVals exNextImproved.learningRate
        (unzipRoiKeyPairs exStateImproved.previousBestFit.mVals ["a"])
        (unzipRoiKeyPairs exStateImproved.previousBestFit.gradient ["a"]))
      ["a"] :=
  C4_descent_anchor exStateImproved [exResultImproved] (1 / 10) ["a"]
    exNextImproved (by rfl)

/-- A prior state whose best fit (objective `4`) will beat the next
aggregate objective (`6`): the next round regresses. -/
def exStateRegressed : RemoteState :=
  { gradient := [("a", some 2)]
    iterationCount := 0
    learningRate := 1
    mVals := [("a", some 3)]
    objective := 7
    previousBestFit :=
      { gradient := [("a", some 1)]
        mVals := [("a", some 2)]
        objective := 4 }
    r2 := 0
    complete := false }

/-- A participant result making the round accepted and regressed
(objective `6 > 4`). -/
def exResultRegressed : UserResult :=
  { previousAggregateMVals := [("a", some 3)]
    gradient := [("a", some 1)]
    r2 := 1 / 2
    data := { objective := 6 } }

/-- The document of the concrete regressed round: learning rate halved
to `1/2`, best fit kept, `mVals` stepped from the best fit's data
(`2 - (1/2) * 1 = 3/2`). -/
def exNextRegressed : RemoteState :=
  { gradient := [("a", some 1)]
    iterationCount := 1
    learningRate := 1 / 2
    mVals := [("a", some (3 / 2))]
    objective := 6
    previousBestFit :=
      { gradient := [("a", some 1)]
        mVals := [("a", some 2)]
        objective := 4 }
    r2 := 1 / 2
    complete := false }

/-- C5 witness: a concrete regressed round (aggregate objective `6`
above the best fit's `4`) halves the learning rate and keeps the best
fit. -/
theorem C5_learning_rate_selection_witness :
    exNextRegressed.learningRate = exStateRegressed.learningRate / 2 ∧
    exNextRegressed.previousBestFit = exStateRegressed.previousBestFit :=
  (C5_learning_rate_selection exStateRegressed [exResultRegressed] (1 / 10)
      ["a"] exNextRegressed (by rfl)).1 (by decide)

/-! ## List lemmas for the aggregation formulas -/

theorem foldl_add_eq (x : ℚ) (xs : List ℚ) :
    xs.foldl (· + ·) x = x + xs.sum := by
  induction xs generalizing x with
  | nil => simp
  | cons y ys ih => simp [ih, add_assoc]

theorem sum_eq_some (xs : List ℚ) (a : ℚ) (h : sum xs = some a) :
    a = xs.sum ∧ xs ≠ [] := by
  cases xs with
  | nil => simp [sum] at h
  | cons x l =>
    simp only [sum, Option.some.injEq] at h
    exact ⟨by rw [← h, foldl_add_eq, List.sum_cons], by simp⟩

theorem mean_eq_sum_div (xs : List ℚ) (h : xs ≠ []) :
    mean xs = xs.sum / (xs.length : ℚ) := by
  cases xs with
  | nil => exact absurd rfl h
  | cons x l => simp [mean, sum, foldl_add_eq]

theorem jsAdd_zero_left (x : JsNum) : jsAdd (some 0) x = x := by
  cases x <;> simp [jsAdd]

theorem zipWith_jsAdd_map (ks : List String) (f g : String → JsNum) :
    List.zipWith jsAdd (ks.map f) (ks.map g) =
      ks.map (fun k => jsAdd (f k) (g k)) := by
  induction ks with
  | nil => rfl
  | cons k ks ih => simp [ih]

/-- The column of the aggregate gradient at one ROI key, written as the
spec writes it: the sum over the participants of that participant's
gradient value at the key. -/
def specGradientColumnSum (localResults : List UserResult) (key : String) :
    JsNum :=
  localResults.foldl (fun acc r => jsAdd acc (r.gradient.get key)) (some 0)

theorem foldl_columns (rs : List UserResult) (ks : List String)
    (h : String → JsNum) :
    (rs.map (fun r => ks.map (fun k => r.gradient.get k))).foldl
      (fun acc row => List.zipWith jsAdd acc row) (ks.map h) =
    ks.map (fun k =>
      rs.foldl (fun a r => jsAdd a (r.gradient.get k)) (h k)) := by
  induction rs generalizing h with
  | nil => rfl
  | cons r rs ih =>
    simp only [List.map_cons, List.foldl_cons, zipWith_jsAdd_map]
    exact ih (fun k => jsAdd (h k) (r.gradient.get k))

theorem columnWiseSum_cons (r : List JsNum) (rs : List (List JsNum)) :
    columnWiseSum (r :: rs) =
      rs.foldl (fun acc row => List.zipWith jsAdd acc row) r := rfl

theorem columnWiseSum_gradients (R : List UserResult) (ks : List String)
    (hR : R ≠ []) :
    columnWiseSum (getGradientValues R ks) =
      ks.map (fun k => specGradientColumnSum R k) := by
  cases R with
  | nil => exact absurd rfl hR
  | cons r rs =>
    have hgv : getGradientValues (r :: rs) ks =
        (ks.map (fun k => r.gradient.get k)) ::
          rs.map (fun a => ks.map (fun k => a.gradient.get k)) := by
      simp [getGradientValues, unzipRoiKeyPairs, List.map_map,
        Function.comp]
    rw [hgv, columnWiseSum_cons, foldl_columns]
    refine List.map_congr_left (fun k _ => ?_)
    simp [specGradientColumnSum, jsAdd_zero_left]

theorem any_key (m : RoiMap) (q : String) :
    (m.any (fun p => decide (p.1 = q))) = true ↔ q ∈ m.map Prod.fst := by
  simp [List.any_eq_true, List.mem_map]

theorem get_zip_map (ks : List String) (g : String → JsNum) (k : String)
    (hk : k ∈ ks) :
    RoiMap.get (zipRoiKeyPairs (ks.map g) ks) k = g k := by
  induction ks with
  | nil => cases hk
  | cons k' ks ih =>
    show RoiMap.get ((k', g k') :: ks.zip (ks.map g)) k = g k
    rw [RoiMap.get]
    by_cases hmem : k ∈ ks
    · have hany : ((ks.zip (ks.map g)).any (fun p => decide (p.1 = k)))
          = true := by
        rw [any_key, List.map_fst_zip _ _ (by simp)]
        exact hmem
      rw [if_pos hany]
      exact ih hmem
    · have hk' : k = k' := (List.mem_cons.mp hk).resolve_right hmem
      have hany : ((ks.zip (ks.map g)).any (fun p => decide (p.1 = k)))
          = false := by
        rw [Bool.eq_false_iff]
        intro hcon
        rw [any_key, List.map_fst_zip _ _ (by simp)] at hcon
        exact hmem hcon
      rw [if_neg (by simp [hany]), if_pos hk'.symm, hk']

/-! ## C6: the aggregation formulas -/

/-- C6.  In every accepted aggregation round, the returned `objective`
is the SUM (not the average) of the participants' objective values, the
returned `gradient` holds at every ROI key the column-wise sum of the
participants' gradient values at that key, and the returned `r2` is the
arithmetic mean of the participants' `r2` values. -/
theorem C6_aggregate_formulas (S : RemoteState) (R : List UserResult)
    (tol : ℚ) (keys : List String) (d : RemoteState)
    (h : computeAggregate S R tol keys = .ok (.next d)) :
    d.objective = (getObjectiveValues R).sum ∧
    (∀ k, k ∈ keys → d.gradient.get k = specGradientColumnSum R k) ∧
    d.r2 = (R.map (fun r => r.r2)).sum / ((R.length : ℚ)) := by
  obtain ⟨a, hsum, _, hcase⟩ := computeAggregate_next_spec S R tol keys d h
  obtain ⟨ha, hne⟩ := sum_eq_some _ _ hsum
  have hRne : R ≠ [] := by
    intro h0
    rw [h0] at hne
    exact hne rfl
  have hfields : d.gradient = aggGradientMap R keys ∧ d.objective = a ∧
      d.r2 = mean (R.map (fun r => r.r2)) := by
    rcases hcase with ⟨_, rfl⟩ | ⟨_, rfl⟩ <;> exact ⟨rfl, rfl, rfl⟩
  obtain ⟨hg, ho, hr⟩ := hfields
  refine ⟨by rw [ho, ha], ?_, ?_⟩
  · intro k hk
    rw [hg]
    show RoiMap.get
      (zipRoiKeyPairs (columnWiseSum (getGradientValues R keys)) keys) k = _
    rw [columnWiseSum_gradients R keys hRne]
    exact get_zip_map keys (fun q => specGradientColumnSum R q) k hk
  · have hmne : R.map (fun r => r.r2) ≠ [] := by
      cases R with
      | nil => exact absurd rfl hRne
      | cons x l => simp
    rw [hr, mean_eq_sum_div _ hmne]
    simp

/-- C6 witness: the formulas at the concrete regressed round — one
participant with objective `6`, gradient `{a: 1}` and r² `1/2`. -/
theorem C6_aggregate_formulas_witness :
    exNextRegressed.objective = (getObjectiveValues [exResultRegressed]).sum ∧
    exNextRegressed.gradient.get "a" =
      specGradientColumnSum [exResultRegressed] "a" ∧
    exNextRegressed.r2 =
      ([exResultRegressed].map (fun r => r.r2)).sum /
        (([exResultRegressed] : List UserResult).length : ℚ) := by
  have hc := C6_aggregate_formulas exStateRegressed [exResultRegressed]
    (1 / 10) ["a"] exNextRegressed (by rfl)
  exact ⟨hc.1, hc.2.1 "a" (by simp), hc.2.2⟩

/-! ## C7: history length -/

theorem runRounds_length (rounds : List (List UserResult)) (tol : ℚ)
    (keys : List String) :
    ∀ hs final : HistState, runRounds hs rounds tol keys = some final →
      final.history.length = hs.history.length + rounds.length := by
  induction rounds with
  | nil =>
    intro hs final h
    simp only [runRounds, Option.some.injEq] at h
    rw [← h]
    simp
  | cons r rs ih =>
    intro hs final h
    unfold runRounds at h
    cases hr : runRound hs r tol keys with
    | none => rw [hr] at h; cases h
    | some hs' =>
      rw [hr] at h
      have hlen : hs'.history.length = hs.history.length + 1 := by
        unfold runRound at hr
        cases he : computeAggregate hs.state r tol keys with
        | error e => rw [he] at hr; cases hr
        | ok v =>
          cases v with
          | stop => rw [he] at hr; cases hr
          | next d =>
            rw [he] at hr
            simp only [Option.some.injEq] at hr
            rw [← hr]
            simp
      have := ih hs' final h
      rw [this, hlen]
      simp only [List.length_cons]
      omega

/-- C7.  After `k` accepted aggregation rounds from a state with empty
history (as the seed has), the history has length `k`: each accepted
round appends exactly one `{gradient, mVals, objective, r2,
learningRate}` snapshot.  A history entry is a `Snapshot`, a record
with exactly those five fields and no history field, so no entry can
nest a history. -/
theorem C7_history_length (hs : HistState)
    (rounds : List (List UserResult)) (tol : ℚ) (keys : List String)
    (final : HistState) (hseed : hs.history = [])
    (h : runRounds hs rounds tol keys = some final) :
    final.history.length = rounds.length := by
  have := runRounds_length rounds tol keys hs final h
  rw [hseed] at this
  simpa using this

/-- The final state of a concrete one-round run. -/
def exHistFinal : HistState :=
  { state := exNextRegressed
    history := [snapshotOf exNextRegressed] }

/-- C7 witness: one concrete accepted round from an empty history
yields history length 1. -/
theorem C7_history_length_witness : exHistFinal.history.length = 1 :=
  C7_history_length { state := exStateRegressed, history := [] }
    [[exResultRegressed]] (1 / 10) ["a"] exHistFinal rfl (by rfl)

/-! ## C8: the zip/unzip round trip needs distinct keys -/

/-- C8 counterexample.  With the duplicated key list `["a", "a"]` the
round trip fails: `_.zipObject(["a","a"], [1,2])` is `{a: 2}` (the
later binding wins), so unzipping yields `[2, 2] ≠ [1, 2]`.  The
claim's "with no further assumption (such as distinctness of the keys)"
is therefore false. -/
theorem C8_counterexample :
    unzipRoiKeyPairs (zipRoiKeyPairs [some 1, some 2] ["a", "a"])
      ["a", "a"] ≠ [some 1, some 2] := by decide

/-- C8 (amended).  For every pair of equal-length ordered lists
(values, keys) whose keys are pairwise distinct,
`unzip(zip(values, keys), keys) = values`. -/
theorem C8_round_trip (values : List JsNum) (keys : List String)
    (hnd : keys.Nodup) (hlen : keys.length = values.length) :
    unzipRoiKeyPairs (zipRoiKeyPairs values keys) keys = values := by
  induction keys generalizing values with
  | nil =>
    cases values with
    | nil => rfl
    | cons v vs => simp at hlen
  | cons k ks ih =>
    cases values with
    | nil => simp at hlen
    | cons v vs =>
      have hlen' : ks.length = vs.length := by simpa using hlen
      have hknotin : k ∉ ks := (List.nodup_cons.mp hnd).1
      have hndks : ks.Nodup := (List.nodup_cons.mp hnd).2
      show RoiMap.get ((k, v) :: ks.zip vs) k ::
          ks.map (fun q => RoiMap.get ((k, v) :: ks.zip vs) q) = v :: vs
      have hanyk : ((ks.zip vs).any (fun p => decide (p.1 = k)))
          = false := by
        rw [Bool.eq_false_iff]
        intro hcon
        rw [any_key, List.map_fst_zip _ _ (le_of_eq hlen')] at hcon
        exact hknotin hcon
      congr 1
      · rw [RoiMap.get, if_neg (by simp [hanyk]), if_pos rfl]
      · have hpt : ∀ q ∈ ks, RoiMap.get ((k, v) :: ks.zip vs) q =
            RoiMap.get (ks.zip vs) q := by
          intro q hq
          rw [RoiMap.get]
          have hany : ((ks.zip vs).any (fun p => decide (p.1 = q)))
              = true := by
            rw [any_key, List.map_fst_zip _ _ (le_of_eq hlen')]
            exact hq
          rw [if_pos hany]
        rw [List.map_congr_left hpt]
        exact ih vs hndks hlen'

/-- C8 witness: the amended round trip at concrete distinct keys. -/
theorem C8_round_trip_witness :
    unzipRoiKeyPairs (zipRoiKeyPairs [some 1, some 2] ["a", "b"])
      ["a", "b"] = [some 1, some 2] :=
  C8_round_trip [some 1, some 2] ["a", "b"] (by decide) (by decide)

/-! ## C9: shape errors in the local regression -/

/-- C9.  `computeRegression` fails with the spec's `InputShapeError`
whenever the predictor and response matrices have mismatched row counts
or either is empty, and on such inputs returns no normal
`{gradient, objective, r2, previousAggregateMVals}` result.
(`normalize` preserves the row count, and the spec-modelled kernel
raises the error before any result is assembled.) -/
theorem C9_input_shape_error (xVals yVals : List (List ℚ))
    (aggregateMVals : List ℚ) (roiKeys : List String)
    (h : xVals.length ≠ yVals.length ∨ xVals = [] ∨ yVals = []) :
    computeRegression xVals yVals aggregateMVals roiKeys =
      .error .inputShapeError := by
  have hx : (normalize xVals).length = xVals.length := by simp [normalize]
  have hy : (normalize yVals).length = yVals.length := by simp [normalize]
  have hcond : (normalize xVals).length ≠ (normalize yVals).length ∨
      normalize xVals = [] ∨ normalize yVals = [] := by
    rcases h with h | h | h
    · exact Or.inl (by rw [hx, hy]; exact h)
    · exact Or.inr (Or.inl (by simp [normalize, h]))
    · exact Or.inr (Or.inr (by simp [normalize, h]))
  have hg : ridgeGradient aggregateMVals (normalize xVals)
      (normalize yVals) = .error .inputShapeError := by
    unfold ridgeGradient
    rw [if_pos hcond]
  unfold computeRegression
  dsimp only
  rw [hg]
  rfl

/-- C9 witness: an empty response matrix fails with the shape error. -/
theorem C9_input_shape_error_witness :
    computeRegression [[1]] [] [1] ["a"] = .error .inputShapeError :=
  C9_input_shape_error [[1]] [] [1] ["a"] (Or.inr (Or.inr rfl))

end Multishot
